import Mathlib

/-!
Shallow embedding of the canary middleware and label load balancer of the
teambition/traefik repository, together with proofs settling the frozen
claims about it.

Embedded source files:
* pkg/middlewares/canary/canary.go  (X-Canary header parse/serialize,
  rate-limit key synthesis)
* pkg/middlewares/canary/label.go   (LabelStore: two-generation cache)
* pkg/middlewares/canary/request.go (MustGetUserLabels wrapper)
* pkg/server/service/loadbalancer/lrr (labeled load balancer; the revision
  that parses the nofallback flag)

Go strings are modelled as Lean `String` and manipulated through their
character lists; Go `time.Time`/`time.Duration` values are modelled as `Int`
seconds; `nil` slices and pointers are modelled with `Option`.
-/

namespace TraefikSpec

/-! ### String helpers mirroring the Go standard library -/

/-- The whitespace characters trimmed by Go's `strings.TrimSpace`
(`unicode.IsSpace` restricted to Latin-1, which covers every character the
middleware is specified over). -/
def isSp (c : Char) : Bool :=
  c = ' ' || c = '\t' || c = '\n' || c = Char.ofNat 11 || c = Char.ofNat 12 ||
  c = '\r' || c = Char.ofNat 0x85 || c = Char.ofNat 0xA0

/-- `strings.TrimSpace` on a character list: drop whitespace from both ends. -/
def trimL (l : List Char) : List Char :=
  ((l.dropWhile isSp).reverse.dropWhile isSp).reverse

/-- `strings.TrimSpace`. -/
def trimSpace (s : String) : String :=
  String.mk (trimL s.data)

/-- `listStarts p l` is true when `p` is a leading segment of `l`
(`strings.HasPrefix` on character lists, pattern first). -/
def listStarts : List Char → List Char → Bool
  | [], _ => true
  | _ :: _, [] => false
  | a :: as, b :: bs => if a = b then listStarts as bs else false

/-- `strings.HasPrefix s p`. -/
def strStarts (s p : String) : Bool :=
  listStarts p.data s.data

/-- `compatible p k` is false when `p` can never be a leading segment of
`k ++ t`, whatever `t` is: the mismatch happens inside `k`. -/
def compatible : List Char → List Char → Bool
  | _, [] => true
  | [], _ => true
  | a :: as, b :: bs => if a = b then compatible as bs else false

/-- `s[n:]` on a Go string (drop the first `n` characters). -/
def strDrop (s : String) (n : Nat) : String :=
  String.mk (s.data.drop n)

/-- `strings.Split` on a single-character separator, over character lists.
`splitSep c l` always returns a non-empty list of fragments. -/
def splitSep (c : Char) : List Char → List (List Char)
  | [] => [[]]
  | x :: rest =>
    let r := splitSep c rest
    if x = c then [] :: r
    else
      match r with
      | [] => [[x]]
      | h :: t => (x :: h) :: t

/-- `strings.Split(s, <c>)` for the one-character separators used by the
header parser. -/
def splitOnSep (s : String) (c : Char) : List String :=
  (splitSep c s.data).map String.mk

/-- `strings.Join(l, sep)` on character lists. -/
def joinSep (sep : List Char) : List (List Char) → List Char
  | [] => []
  | [x] => x
  | x :: y :: xs => x ++ sep ++ joinSep sep (y :: xs)

/-- `strings.Join`. -/
def joinWith (sep : String) (l : List String) : String :=
  String.mk (joinSep sep.data (l.map String.data))

/-- Position of the first occurrence of `c`, if any. -/
def idxAux (c : Char) : List Char → Option Nat
  | [] => none
  | x :: xs => if x = c then some 0 else (idxAux c xs).map (· + 1)

/-- `strings.IndexByte`: index of the first occurrence of `c` in `s`, `-1`
when absent. -/
def indexByteB (s : String) (c : Char) : Int :=
  match idxAux c s.data with
  | none => -1
  | some i => (i : Int)

/-- A lower-case ASCII letter. -/
def isLowerAZ (c : Char) : Bool := 'a' ≤ c && c ≤ 'z'

/-- A character of the class `[0-9a-z-]`. -/
def isLabelChar (c : Char) : Bool :=
  ('0' ≤ c && c ≤ '9') || ('a' ≤ c && c ≤ 'z') || c = '-'

/-- The `validLabelReg` regular expression `^[a-z][0-9a-z-]{1,62}$` from
canary.go. -/
def validLabel (s : String) : Bool :=
  match s.data with
  | [] => false
  | c :: cs => isLowerAZ c && decide (1 ≤ cs.length) && decide (cs.length ≤ 62) && cs.all isLabelChar

/-! ### The canaryHeader structure (canary.go) -/

/-- The structured view of the X-Canary header (canary.go `canaryHeader`). -/
structure CanaryHeader where
  label : String
  product : String
  uid : String
  client : String
  channel : String
  app : String
  version : String
  nofallback : Bool
  testing : Bool
deriving DecidableEq

/-- The Go zero value `&canaryHeader{}`. -/
def emptyCH : CanaryHeader :=
  { label := "", product := "", uid := "", client := "", channel := "",
    app := "", version := "", nofallback := false, testing := false }

/-- One iteration of the `canaryHeader.feed` loop body, applied to the
already-trimmed token `v` at position `i` of the token list. -/
def feedTokenT (ch : CanaryHeader) (i : Nat) (v : String) (trust : Bool) : CanaryHeader :=
  if strStarts v "label=" then { ch with label := strDrop v 6 }
  else if trust && strStarts v "product=" then { ch with product := strDrop v 8 }
  else if trust && strStarts v "uid=" then { ch with uid := strDrop v 4 }
  else if strStarts v "client=" then { ch with client := strDrop v 7 }
  else if strStarts v "channel=" then { ch with channel := strDrop v 8 }
  else if strStarts v "app=" then { ch with app := strDrop v 4 }
  else if strStarts v "version=" then { ch with version := strDrop v 8 }
  else if v = "nofallback" then { ch with nofallback := true }
  else if v = "testing" then { ch with testing := true }
  else if i = 0 && validLabel v then { ch with label := v }
  else ch

/-- One iteration of the `canaryHeader.feed` loop (trims, then dispatches). -/
def feedToken (ch : CanaryHeader) (i : Nat) (v : String) (trust : Bool) : CanaryHeader :=
  feedTokenT ch i (trimSpace v) trust

/-- The `for i, v := range vals` loop of `canaryHeader.feed`. -/
def feedAux (ch : CanaryHeader) (i : Nat) (vals : List String) (trust : Bool) : CanaryHeader :=
  match vals with
  | [] => ch
  | v :: rest => feedAux (feedToken ch i v trust) (i + 1) rest trust

/-- `canaryHeader.feed` (canary.go lines 406-437): the token loop followed by
the `testing` label fixup. -/
def feed (ch : CanaryHeader) (vals : List String) (trust : Bool) : CanaryHeader :=
  let r := feedAux ch 0 vals trust
  if r.testing ∧ r.label = "" then { r with label := "testing" } else r

/-- The preprocessing in `canaryHeader.fromHeader` (canary.go lines 389-399):
a single header value containing a comma (or, failing that, a semicolon) at a
positive index is split on that delimiter. -/
def headerVals (vals : List String) : List String :=
  match vals with
  | [v] =>
    if indexByteB v ',' > 0 then splitOnSep v ','
    else if indexByteB v ';' > 0 then splitOnSep v ';'
    else [v]
  | _ => vals

/-- `canaryHeader.fromHeader`. -/
def fromHeaderVals (ch : CanaryHeader) (vals : List String) (trust : Bool) : CanaryHeader :=
  feed ch (headerVals vals) trust

/-- Parsing a single X-Canary header value into a fresh header, as the
middleware does. -/
def parseValue (v : String) (trust : Bool) : CanaryHeader :=
  fromHeaderVals emptyCH [v] trust

/-- The `vals` list assembled by `canaryHeader.String` (canary.go lines
440-471), before joining. -/
def chTokens (ch : CanaryHeader) : List String :=
  ["label=" ++ ch.label]
  ++ (if ch.product = "" then [] else ["product=" ++ ch.product])
  ++ (if ch.uid = "" then [] else ["uid=" ++ ch.uid])
  ++ (if ch.client = "" then [] else ["client=" ++ ch.client])
  ++ (if ch.channel = "" then [] else ["channel=" ++ ch.channel])
  ++ (if ch.app = "" then [] else ["app=" ++ ch.app])
  ++ (if ch.version = "" then [] else ["version=" ++ ch.version])
  ++ (if ch.nofallback then ["nofallback"] else [])
  ++ (if ch.testing then ["testing"] else [])

/-- `canaryHeader.String`: empty when the label is empty, otherwise the
comma-joined token list. -/
def chString (ch : CanaryHeader) : String :=
  if ch.label = "" then "" else joinWith "," (chTokens ch)

/-- A field value that survives the header round trip: it contains neither a
comma nor a semicolon and does not end in whitespace. -/
def fieldCleanB (s : String) : Bool :=
  s.data.all (fun c => !(c = ',' || c = ';')) &&
  (match s.data.reverse with
   | [] => true
   | c :: _ => !isSp c)

/-! ### Labels and the LabelStore (label.go) -/

/-- label.go `Label`: a label record from the label service. Lean does not
allow a field named like its structure, so the `Label` field is named `l`
here, after its JSON tag in the source. -/
structure Label where
  l : String
  Clients : List String
  Channels : List String
deriving DecidableEq

/-- `Label.MatchClient`: true iff `Clients` is empty or contains `client`. -/
def Label.MatchClient (l : Label) (client : String) : Bool :=
  l.Clients.isEmpty || l.Clients.contains client

/-- `Label.MatchChannel`: true iff `Channels` is empty or contains `channel`. -/
def Label.MatchChannel (l : Label) (channel : String) : Bool :=
  l.Channels.isEmpty || l.Channels.contains channel

/-- label.go `entry`: the per-uid cache slot. The Go nil slice `value` is
`none`; `expireAt` is in Unix seconds. -/
structure LEntry where
  value : Option (List Label)
  expireAt : Int
deriving DecidableEq

/-- The Go zero value `&entry{}`. -/
def freshEntry : LEntry := { value := none, expireAt := 0 }

/-- Go map lookup on an association list (keys are unique). -/
def mapGet (m : List (String × α)) (k : String) : Option α :=
  (m.find? (fun p => p.1 = k)).map (fun p => p.2)

/-- Go map store on an association list: overwrite the existing binding or
append a new one. -/
def mapSet (m : List (String × α)) (k : String) (v : α) : List (String × α) :=
  if m.any (fun p => p.1 = k) then
    m.map (fun p => if p.1 = k then (k, v) else p)
  else m ++ [(k, v)]

/-- label.go `LabelStore` (the fields the cache algorithm reads and writes).
`staleMap` values are `Option LEntry` because promotion writes a `nil`
tombstone into the stale slot. Durations and instants are Unix seconds. -/
structure LabelStore where
  expiration : Int
  cacheCleanDuration : Int
  shouldRound : Int
  maxCacheSize : Nat
  liveMap : List (String × LEntry)
  staleMap : List (String × Option LEntry)
deriving DecidableEq

/-- The rotation re-check at the end of `mustLoadEntry`: when the live map
has outgrown `maxCacheSize` or the scheduled round is due, demote the live
map to the stale map, start a fresh live map and schedule the next round. -/
def rotateIf (s : LabelStore) (now : Int) : LabelStore :=
  if s.liveMap.length > s.maxCacheSize ∨ s.shouldRound < now then
    { s with shouldRound := now + s.cacheCleanDuration,
             staleMap := s.liveMap.map (fun p => (p.1, some p.2)),
             liveMap := [] }
  else s

/-- The write-locked section of `LabelStore.mustLoadEntry` (label.go lines
121-145): re-check liveMap; on a miss promote a non-nil staleMap entry
(tombstoning the stale slot), or allocate a fresh entry into liveMap; then
re-check the rotation condition. -/
def mustLoadEntryLocked (s : LabelStore) (key : String) (now : Int) : LEntry × LabelStore :=
  match mapGet s.liveMap key with
  | some e => (e, rotateIf s now)
  | none =>
    match mapGet s.staleMap key with
    | some (some e) =>
      (e, rotateIf { s with liveMap := mapSet s.liveMap key e,
                            staleMap := mapSet s.staleMap key none } now)
    | _ =>
      (freshEntry, rotateIf { s with liveMap := mapSet s.liveMap key freshEntry } now)

/-- `LabelStore.mustLoadEntry` (label.go lines 111-146): the read-locked fast
path followed, on a miss or a due rotation, by the write-locked section. -/
def mustLoadEntryS (s : LabelStore) (key : String) (now : Int) : LEntry × LabelStore :=
  let needRound := s.liveMap.length > s.maxCacheSize ∨ s.shouldRound < now
  match mapGet s.liveMap key with
  | some e => if needRound then mustLoadEntryLocked s key now else (e, s)
  | none => mustLoadEntryLocked s key now

/-- Writing the (possibly freshly fetched) entry back through the pointer
returned by `mustLoadEntry`: that pointer lives in `liveMap`, except when the
same call rotated the maps, in which case it lives in `staleMap`. -/
def storeUpdateEntry (s : LabelStore) (key : String) (e : LEntry) : LabelStore :=
  if s.liveMap.any (fun p => p.1 = key) then
    { s with liveMap := mapSet s.liveMap key e }
  else
    { s with staleMap := mapSet s.staleMap key (some e) }

/-- The entry currently reachable for `key` (liveMap first, then a non-nil
staleMap slot) — the pointer any later lookup would observe. -/
def lookupEntry (s : LabelStore) (key : String) : Option LEntry :=
  match mapGet s.liveMap key with
  | some e => some e
  | none => (mapGet s.staleMap key).bind id

/-- request.go `MustGetUserLabels`, with the HTTP exchange abstracted:
`healthy` is `hc.MaybeHealthy()`, and `res` is the outcome of
`getUserLabels` (`none` for a transport error, non-200 status or malformed
body; `some (labels, ts)` for a 200 response). On any failure the caller
receives the empty list and the current time. -/
def MustGetUserLabelsM (healthy : Bool) (res : Option (List Label × Int)) (now : Int) :
    List Label × Int :=
  if healthy then
    match res with
    | none => ([], now)
    | some (labels, ts) => (labels, if 0 < ts ∧ ts < now then ts else now)
  else ([], now)

/-- `LabelStore.MustLoadLabels` (label.go lines 96-109), with the fetcher
passed as a function (as `mustFetchLabels` is a field in the source).
Returns the labels, whether the fetcher ran, and the updated store. -/
def MustLoadLabelsS (fetch : String → List Label × Int) (s : LabelStore) (uid : String)
    (now : Int) : (List Label × Bool) × LabelStore :=
  let p := mustLoadEntryS s uid now
  let e := p.1
  if e.value = none ∨ e.expireAt < now then
    let r := fetch uid
    let e2 : LEntry := { value := some r.1, expireAt := r.2 + p.2.expiration }
    ((r.1, true), storeUpdateEntry p.2 uid e2)
  else
    ((e.value.getD [], false), p.2)

/-- Folding `mustLoadEntry` over a sequence of uids at a fixed instant
(sequentially inserting uids into the store). -/
def insertAll (s : LabelStore) (us : List String) (now : Int) : LabelStore :=
  us.foldl (fun st u => (mustLoadEntryS st u now).2) s

/-- An initial store as built by `NewLabelStore`: empty generations and a
first rotation scheduled `cacheCleanDuration` from now. -/
def emptyStore (expiration cacheCleanDuration shouldRound : Int) (maxCacheSize : Nat) :
    LabelStore :=
  { expiration := expiration, cacheCleanDuration := cacheCleanDuration,
    shouldRound := shouldRound, maxCacheSize := maxCacheSize,
    liveMap := [], staleMap := [] }

/-! ### The labeled load balancer (lrr, revision with the nofallback flag) -/

/-- lrr `namedHandler`: the embedded `http.Handler` is irrelevant to routing
and is represented by the normalized name alone. -/
structure NamedHandlerL where
  name : String
deriving DecidableEq

/-- Stable insertion into a list sorted by name length, descending: the new
handler goes after every handler whose name is strictly longer and before
the rest (the effect of `sort.SliceStable` on an already-sorted list with
the new element appended). -/
def insertByLen (h : NamedHandlerL) : List NamedHandlerL → List NamedHandlerL
  | [] => [h]
  | x :: xs => if x.name.length ≥ h.name.length then x :: insertByLen h xs else h :: x :: xs

/-- `sliceHandler.AppendAndSort`. -/
def appendAndSort (s : List NamedHandlerL) (h : NamedHandlerL) : List NamedHandlerL :=
  insertByLen h s

/-- `sliceHandler.Match(name, fallback)`: scan the sorted list; with fallback
a prefix match wins, otherwise only an exact name match does. -/
def sliceMatch (s : List NamedHandlerL) (name : String) (fallback : Bool) :
    Option NamedHandlerL :=
  match s with
  | [] => none
  | h :: rest =>
    if fallback && strStarts name h.name then some h
    else if name = h.name then some h
    else sliceMatch rest name fallback

/-- The header scan at the top of `Balancer.ServeHTTP`: extract the label and
the fallback flag from the X-Canary header values. -/
def parseLRRAux (label : String) (fallback : Bool) (i : Nat) : List String → String × Bool
  | [] => (label, fallback)
  | v :: rest =>
    if strStarts v "label=" then parseLRRAux (strDrop v 6) fallback (i + 1) rest
    else if v = "nofallback" then parseLRRAux label false (i + 1) rest
    else if i = 0 then parseLRRAux v fallback (i + 1) rest
    else parseLRRAux label fallback (i + 1) rest

/-- The label/fallback pair read from the request's X-Canary values. -/
def parseLRR (vals : List String) : String × Bool :=
  parseLRRAux "" true 0 vals

/-- The routing outcome of `Balancer.ServeHTTP`. -/
inductive LRRResult where
  | served (h : NamedHandlerL)
  | defaulted
  | error500
deriving DecidableEq

/-- lrr `Balancer`: base service name, whether a default handler is mounted,
and the sorted variant handlers. -/
structure BalancerL where
  serviceName : String
  hasDefault : Bool
  handlers : List NamedHandlerL
deriving DecidableEq

/-- `Balancer.ServeHTTP` (the revision parsing `nofallback`): pick the
variant for `serviceName-label`, else the default when allowed, else 500. -/
def serveLRR (b : BalancerL) (vals : List String) : LRRResult :=
  let p := parseLRR vals
  let label := p.1
  let fallback := p.2
  let matched : Option NamedHandlerL :=
    if label = "" then none
    else sliceMatch b.handlers (b.serviceName ++ "-" ++ label) fallback
  match matched with
  | some h => LRRResult.served h
  | none =>
    if b.hasDefault = true ∧ (fallback = true ∨ label = "") then LRRResult.defaulted
    else LRRResult.error500

/-- Position of the first occurrence of the pattern `pat` in `s`
(`strings.Index`), as an option over character lists. -/
def subIdxAux (pat : List Char) : List Char → Option Nat
  | [] => if pat = [] then some 0 else none
  | l@(_ :: rest) =>
    if listStarts pat l then some 0
    else (subIdxAux pat rest).map (· + 1)

/-- The character class `[0-9-]` right-trimmed by `removeNsPort`. -/
def isPortChar (c : Char) : Bool :=
  ('0' ≤ c && c ≤ '9') || c = '-'

/-- `strings.TrimRight(l, "0123456789-")` on character lists. -/
def trimRightPort (l : List Char) : List Char :=
  (l.reverse.dropWhile isPortChar).reverse

/-- lrr `removeNsPort` (lrr.go lines 84-90): truncate everything before the
first occurrence of the base service name when it occurs at a positive
index, then right-trim digits and dashes. -/
def removeNsPort (fullServiceName ServiceName : String) : String :=
  let f :=
    match subIdxAux ServiceName.data fullServiceName.data with
    | some i => if i > 0 then String.mk (fullServiceName.data.drop i) else fullServiceName
    | none => fullServiceName
  String.mk (trimRightPort f.data)

/-- True when the string is non-empty and its last character is neither a
digit nor a dash. -/
def endsNonPort (s : String) : Bool :=
  match s.data.reverse with
  | [] => false
  | c :: _ => !isPortChar c

/-! ### The rate-limit key synthesis (canary.go lines 223-253) -/

/-- The request data the rate-limit key computation reads. `remoteAddrHost`
is the host part of `req.RemoteAddr` when `net.SplitHostPort` succeeds. -/
structure RLReq where
  method : String
  path : String
  host : String
  remoteAddrHost : Option String
  urlFull : String
  headers : List (String × String)
deriving DecidableEq

/-- `req.Header.Get`: first value for the key, empty string when absent. -/
def headerGet (hs : List (String × String)) (k : String) : String :=
  ((hs.find? (fun p => p.1 = k)).map (fun p => p.2)).getD ""

/-- The fallback piece used when no key piece was collected: X-Real-Ip, else
the remote address host, else the full request URL. -/
def fallbackPiece (req : RLReq) : String :=
  let v := headerGet req.headers "X-Real-Ip"
  if v ≠ "" then v
  else
    match req.remoteAddrHost with
    | some clientIP => clientIP
    | none => req.urlFull

/-- The switch body of the rate-limit key loop in `Canary.processCanary`:
UID/Method/Path/Host tokens append their value unconditionally; a named
header token appends only when its value is non-empty. -/
def rlPieceStep (uid : String) (req : RLReq) (ks : List String) (k : String) : List String :=
  if k = "UID" then ks ++ [uid]
  else if k = "Method" then ks ++ [req.method]
  else if k = "Path" then ks ++ [req.path]
  else if k = "Host" then ks ++ [req.host]
  else
    let v := headerGet req.headers k
    if v ≠ "" then ks ++ [v] else ks

/-- The rate-limit key block of `Canary.processCanary` (canary.go lines
223-253): `none` when `rateLimitKey` is not configured, otherwise the value
written to the X-Ratelimit-Key request header. -/
def rateLimitKeyOf (rateLimitKey : List String) (uid : String) (req : RLReq) : Option String :=
  if rateLimitKey.length > 0 then
    let keys := rateLimitKey.foldl (rlPieceStep uid req) []
    let keys := if keys.length = 0 then [fallbackPiece req] else keys
    some (joinWith ":" keys)
  else none

/-- The contribution of one configured token to the rate-limit key, written
from the amended claim: UID/Method/Path/Host always contribute their value,
a named header contributes only when non-empty. -/
def specPiece (uid : String) (req : RLReq) (k : String) : Option String :=
  if k = "UID" then some uid
  else if k = "Method" then some req.method
  else if k = "Path" then some req.path
  else if k = "Host" then some req.host
  else
    let v := headerGet req.headers k
    if v = "" then none else some v

/-- The rate-limit key as described by the amended claim: collect the pieces
of all tokens, fall back when none was collected, join with colons. -/
def specRateLimitKey (rateLimitKey : List String) (uid : String) (req : RLReq) :
    Option String :=
  match rateLimitKey with
  | [] => none
  | _ =>
    let pieces := rateLimitKey.filterMap (specPiece uid req)
    some (joinWith ":" (if pieces = [] then [fallbackPiece req] else pieces))

/-- The rate-limit key as described by the original claim C8: every token's
value is a piece, empty pieces are dropped, and the fallback applies when
all pieces are empty. -/
def claimRateLimitKey (rateLimitKey : List String) (uid : String) (req : RLReq) :
    Option String :=
  match rateLimitKey with
  | [] => none
  | _ =>
    let raw := rateLimitKey.map (fun k =>
      if k = "UID" then uid
      else if k = "Method" then req.method
      else if k = "Path" then req.path
      else if k = "Host" then req.host
      else headerGet req.headers k)
    let pieces := raw.filter (fun v => v ≠ "")
    some (joinWith ":" (if pieces = [] then [fallbackPiece req] else pieces))

/-! ### Concrete scenario data used by the claims -/

/-- Scenario S5 store: `maxSize = 3`, expiration 600s, clean interval 1000s,
first rotation due at t = 100; all requests happen at t = 0. -/
def s5Store : LabelStore := emptyStore 600 1000 100 3

/-- Scenario S5 fetcher: uid `u` resolves to the single label `u`. -/
def s5Fetch : String → List Label × Int := fun u => ([{ l := u, Clients := [], Channels := [] }], 0)

/-- A fetcher that must not run in scenario S5's final step. -/
def s5Trap : String → List Label × Int := fun _ => ([{ l := "TRAP", Clients := [], Channels := [] }], 0)

/-- Scenario S5, steps 1-4: load u1, u2, u3, u4 in sequence at t = 0. -/
def s5Run1 := MustLoadLabelsS s5Fetch s5Store "u1" 0

/-- Scenario S5 after loading u2. -/
def s5Run2 := MustLoadLabelsS s5Fetch s5Run1.2 "u2" 0

/-- Scenario S5 after loading u3. -/
def s5Run3 := MustLoadLabelsS s5Fetch s5Run2.2 "u3" 0

/-- Scenario S5 after loading u4 (this load triggers the rotation). -/
def s5Run4 := MustLoadLabelsS s5Fetch s5Run3.2 "u4" 0

/-- Scenario S5 final step: a second load of u1, with a fetcher that would be
observable if it ran. -/
def s5Run5 := MustLoadLabelsS s5Trap s5Run4.2 "u1" 0

/-- The expected cached entry of a scenario S5 uid. -/
def s5Entry (u : String) : LEntry :=
  { value := some [{ l := u, Clients := [], Channels := [] }], expireAt := 600 }

/-- Claim C2 scenario store. -/
def c2Store : LabelStore := emptyStore 600 1000 100 3

/-- Claim C2 failing fetch: `MustGetUserLabels` outcome for a transient error
(transport error, non-200, or malformed body) at t = 5. -/
def c2FailFetch : String → List Label × Int := fun _ => MustGetUserLabelsM true none 5

/-- Claim C2 scenario: the load that hits the failing fetch. -/
def c2Run1 := MustLoadLabelsS c2FailFetch c2Store "u1" 5

/-- Claim C2 scenario: a healthy fetcher available to the follow-up request. -/
def c2Fetch2 : String → List Label × Int := fun _ => ([{ l := "x", Clients := [], Channels := [] }], 6)

/-- Scenario S4 balancer: base name `lrr`, a default handler, and the six
variant handlers registered in the order of the lrr test. -/
def lrrS4 : BalancerL :=
  { serviceName := "lrr", hasDefault := true,
    handlers :=
      appendAndSort (appendAndSort (appendAndSort (appendAndSort (appendAndSort
        (appendAndSort [] { name := "lrr-api" }) { name := "lrr-api-stable" })
        { name := "lrr-api-canary" }) { name := "lrr" })
        { name := "lrr-api-canary-v1" }) { name := "lrr-api-canary-v2" } }

/-- Claim C8 scenario request: X-Real-Ip present, empty resolved uid. -/
def rlReqX : RLReq :=
  { method := "GET", path := "/p", host := "h", remoteAddrHost := some "9.9.9.9",
    urlFull := "http://u", headers := [("X-Real-Ip", "1.2.3.4")] }

/-! ### Association-list map lemmas -/

theorem mapGet_eq_none_of_any_false {α : Type} {m : List (String × α)} {k : String}
    (h : m.any (fun p => p.1 = k) = false) : mapGet m k = none := by
  induction m with
  | nil => rfl
  | cons p rest ih =>
    simp only [List.any_cons, Bool.or_eq_false_iff] at h
    simp only [mapGet, List.find?]
    rw [show (decide (p.1 = k)) = false from h.1]
    exact ih h.2

theorem any_false_of_mapGet_eq_none {α : Type} {m : List (String × α)} {k : String}
    (h : mapGet m k = none) : m.any (fun p => p.1 = k) = false := by
  induction m with
  | nil => rfl
  | cons p rest ih =>
    simp only [mapGet, List.find?] at h
    rcases hd : decide (p.1 = k) with _ | _
    · rw [hd] at h
      simp only [List.any_cons, hd, Bool.false_or]
      exact ih h
    · rw [hd] at h
      simp at h

theorem mapSet_of_get_none {α : Type} {m : List (String × α)} {k : String} (v : α)
    (h : mapGet m k = none) : mapSet m k v = m ++ [(k, v)] := by
  unfold mapSet
  rw [any_false_of_mapGet_eq_none h]
  rfl

theorem mapGet_append_single {α : Type} {m : List (String × α)} {k : String} {v : α}
    (h : mapGet m k = none) : mapGet (m ++ [(k, v)]) k = some v := by
  induction m with
  | nil => simp [mapGet, List.find?]
  | cons p rest ih =>
    simp only [mapGet, List.find?] at h ⊢
    rcases hd : decide (p.1 = k) with _ | _
    · rw [hd] at h
      simp only [List.cons_append, List.find?, hd]
      exact ih h
    · rw [hd] at h; simp at h

theorem mapGet_overwrite {α : Type} {m : List (String × α)} {k : String} {v : α}
    (h : m.any (fun p => p.1 = k) = true) :
    mapGet (m.map (fun p => if p.1 = k then (k, v) else p)) k = some v := by
  induction m with
  | nil => simp at h
  | cons p rest ih =>
    simp only [List.any_cons, Bool.or_eq_true] at h
    simp only [List.map_cons]
    rcases hd : decide (p.1 = k) with _ | _
    · have hd' : ¬ p.1 = k := of_decide_eq_false hd
      rw [if_neg hd']
      simp only [mapGet, List.find?, hd]
      rcases h with h | h
      · exact absurd h (by simpa using hd)
      · exact ih h
    · rw [if_pos (of_decide_eq_true hd)]
      simp [mapGet, List.find?]

theorem mapGet_mapSet_self {α : Type} (m : List (String × α)) (k : String) (v : α) :
    mapGet (mapSet m k v) k = some v := by
  unfold mapSet
  split
  · exact mapGet_overwrite (by assumption)
  · exact mapGet_append_single (mapGet_eq_none_of_any_false (by
      rcases ha : m.any (fun p => p.1 = k) with _ | _
      · rfl
      · exact absurd ha (by assumption)))

theorem mapGet_eq_none_of_not_mem {α : Type} {m : List (String × α)} {k : String}
    (h : k ∉ m.map (fun p => p.1)) : mapGet m k = none := by
  apply mapGet_eq_none_of_any_false
  simp only [List.any_eq_false]
  intro p hp
  simp only [decide_eq_true_eq]
  intro hk
  exact h (by simpa [hk] using List.mem_map_of_mem (fun p => p.1) hp)

theorem mapGet_map_const {us : List String} {u : String} (v : α) (h : u ∈ us) :
    mapGet (us.map (fun x => (x, v))) u = some v := by
  induction us with
  | nil => simp at h
  | cons x xs ih =>
    simp only [List.map_cons, mapGet, List.find?]
    rcases hd : decide (x = u) with _ | _
    · rcases List.mem_cons.mp h with h | h
      · rw [h] at hd; simp at hd
      · exact ih h
    · simp

/-! ### Parser lemmas: the trust filter and the testing fixup -/

set_option maxHeartbeats 2000000 in
theorem feedTokenT_notrust_product (ch : CanaryHeader) (i : Nat) (v : String) :
    (feedTokenT ch i v false).product = ch.product := by
  unfold feedTokenT
  split_ifs <;> first | rfl | simp_all

set_option maxHeartbeats 2000000 in
theorem feedTokenT_notrust_uid (ch : CanaryHeader) (i : Nat) (v : String) :
    (feedTokenT ch i v false).uid = ch.uid := by
  unfold feedTokenT
  split_ifs <;> first | rfl | simp_all

theorem feedAux_notrust_product (vals : List String) (ch : CanaryHeader) (i : Nat) :
    (feedAux ch i vals false).product = ch.product ∧
    (feedAux ch i vals false).uid = ch.uid := by
  induction vals generalizing ch i with
  | nil => exact ⟨rfl, rfl⟩
  | cons v rest ih =>
    simp only [feedAux, feedToken]
    refine ⟨?_, ?_⟩
    · rw [(ih _ _).1, feedTokenT_notrust_product]
    · rw [(ih _ _).2, feedTokenT_notrust_uid]

theorem feed_notrust_product (ch : CanaryHeader) (vals : List String) :
    (feed ch vals false).product = ch.product ∧ (feed ch vals false).uid = ch.uid := by
  have h := feedAux_notrust_product vals ch 0
  simp only [feed]
  split
  · exact ⟨h.1, h.2⟩
  · exact ⟨h.1, h.2⟩

set_option maxHeartbeats 2000000 in
theorem feedTokenT_testing_mono (ch : CanaryHeader) (i : Nat) (v : String) (trust : Bool)
    (h : ch.testing = true) : (feedTokenT ch i v trust).testing = true := by
  unfold feedTokenT
  split_ifs <;> first | rfl | exact h

theorem feedAux_testing_mono (vals : List String) (ch : CanaryHeader) (i : Nat) (trust : Bool)
    (h : ch.testing = true) : (feedAux ch i vals trust).testing = true := by
  induction vals generalizing ch i with
  | nil => exact h
  | cons v rest ih =>
    simp only [feedAux, feedToken]
    exact ih _ _ (feedTokenT_testing_mono _ _ _ _ h)

set_option maxHeartbeats 2000000 in
theorem feedTokenT_testing_word (ch : CanaryHeader) (i : Nat) (trust : Bool) :
    feedTokenT ch i "testing" trust = { ch with testing := true } := by
  cases trust <;> rfl

theorem feedAux_testing_of_mem (vals : List String) (ch : CanaryHeader) (i : Nat)
    (trust : Bool) (h : ∃ v ∈ vals, trimSpace v = "testing") :
    (feedAux ch i vals trust).testing = true := by
  induction vals generalizing ch i with
  | nil => simp at h
  | cons v rest ih =>
    rcases h with ⟨w, hw, hts⟩
    rcases List.mem_cons.mp hw with hw | hw
    · subst hw
      simp only [feedAux, feedToken, hts, feedTokenT_testing_word]
      exact feedAux_testing_mono rest _ _ trust rfl
    · simp only [feedAux, feedToken]
      exact ih _ _ ⟨w, hw, hts⟩

/-- Claim C1: for every X-Canary header value containing a `product=` or
`uid=` token, parsing with trust disabled (edge gateway) leaves both the
product and the uid field of the resulting header empty — the two tokens
are discarded at parse time. -/
theorem c1_trust_filter (v x : String)
    (h : ("product=" ++ x) ∈ headerVals [v] ∨ ("uid=" ++ x) ∈ headerVals [v]) :
    (parseValue v false).product = "" ∧ (parseValue v false).uid = "" := by
  unfold parseValue fromHeaderVals
  exact feed_notrust_product emptyCH (headerVals [v])

theorem c1_trust_filter_witness :
    (("product=" ++ "urbs") ∈ headerVals ["label=beta,product=urbs,uid=55"] ∨
      ("uid=" ++ "55") ∈ headerVals ["label=beta,product=urbs,uid=55"]) ∧
    ((parseValue "label=beta,product=urbs,uid=55" false).product = "" ∧
      (parseValue "label=beta,product=urbs,uid=55" false).uid = "") :=
  ⟨by decide, c1_trust_filter "label=beta,product=urbs,uid=55" "urbs" (by decide)⟩

/-- Claim C10: whenever a token list fed to the X-Canary parser contains the
bare `testing` flag (any trust setting) and the token loop recognized no
label, `feed` sets the resulting header's label to the string `testing`. -/
theorem c10_testing_label (vals : List String) (trust : Bool)
    (h1 : ∃ v ∈ vals, trimSpace v = "testing")
    (h2 : (feedAux emptyCH 0 vals trust).label = "") :
    (feed emptyCH vals trust).label = "testing" := by
  unfold feed
  rw [if_pos ⟨feedAux_testing_of_mem vals emptyCH 0 trust h1, h2⟩]

theorem c10_testing_label_witness :
    ((∃ v ∈ ["client=iOS", "testing"], trimSpace v = "testing") ∧
      (feedAux emptyCH 0 ["client=iOS", "testing"] false).label = "") ∧
    (feed emptyCH ["client=iOS", "testing"] false).label = "testing" :=
  ⟨by decide, c10_testing_label ["client=iOS", "testing"] false (by decide) (by decide)⟩

/-- Claim C6: in scenario S5 (maxSize 3, distinct uids u1..u4 loaded in
sequence), the fourth load rotates the generations: liveMap becomes empty
and u1..u3 remain cached in staleMap; a subsequent load of u1 promotes its
entry back into liveMap and returns the previously cached, unexpired value
without invoking the fetcher. -/
theorem c6_s5_rotation_promotion :
    s5Run4.2.liveMap = [] ∧
    mapGet s5Run4.2.staleMap "u1" = some (some (s5Entry "u1")) ∧
    mapGet s5Run4.2.staleMap "u2" = some (some (s5Entry "u2")) ∧
    mapGet s5Run4.2.staleMap "u3" = some (some (s5Entry "u3")) ∧
    s5Run5.1.1 = [{ l := "u1", Clients := [], Channels := [] }] ∧
    s5Run5.1.2 = false ∧
    mapGet s5Run5.2.liveMap "u1" = some (s5Entry "u1") := by
  decide

/-! ### Claim C8: the rate-limit key -/

/-- Claim C8 counterexample: with `rateLimitKey = [UID]` and an empty
resolved uid, the code keeps the empty piece and sets an empty
X-Ratelimit-Key, whereas the claim (drop empty pieces, then fall back to
X-Real-Ip) predicts the X-Real-Ip value. -/
theorem c8_ratelimit_counterexample :
    rateLimitKeyOf ["UID"] "" rlReqX = some "" ∧
    claimRateLimitKey ["UID"] "" rlReqX = some "1.2.3.4" ∧
    rateLimitKeyOf ["UID"] "" rlReqX ≠ claimRateLimitKey ["UID"] "" rlReqX := by
  decide

theorem rlFold (uid : String) (req : RLReq) (ks : List String) (acc : List String) :
    ks.foldl (rlPieceStep uid req) acc = acc ++ ks.filterMap (specPiece uid req) := by
  induction ks generalizing acc with
  | nil => simp
  | cons k ks ih =>
    simp only [List.foldl_cons, List.filterMap_cons, ih]
    unfold rlPieceStep specPiece
    split_ifs <;> simp_all <;> split_ifs <;> simp_all

/-- Claim C8, amended: when `rateLimitKey` is configured non-empty, each
UID/Method/Path/Host token contributes its value even when empty, a named
header token contributes only when non-empty, the fallback (X-Real-Ip, else
the remote address host, else the full URL) applies only when no piece was
contributed at all, and the pieces are joined with colons into the
X-Ratelimit-Key value. -/
theorem c8_ratelimit_amended (rateLimitKey : List String) (uid : String) (req : RLReq) :
    rateLimitKeyOf rateLimitKey uid req = specRateLimitKey rateLimitKey uid req := by
  cases rateLimitKey with
  | nil => rfl
  | cons k ks =>
    simp only [rateLimitKeyOf, specRateLimitKey, rlFold, List.nil_append]
    have hl : (k :: ks).length > 0 := Nat.succ_pos _
    rw [if_pos hl]
    rcases hp : (k :: ks).filterMap (specPiece uid req) with _ | ⟨p, ps⟩
    · simp
    · simp

/-! ### Claim C5: the labeled load balancer -/

/-- Claim C5 counterexample: in the S4 balancer, target
`lrr-api-canary-v1-beta1` with `nofallback` set matches no registered
handler, and the balancer then answers 500 — it does not fall to the
default handler, contrary to the claim. -/
theorem c5_lrr_counterexample :
    serveLRR lrrS4 ["label=api-canary-v1-beta1", "nofallback"] = LRRResult.error500 ∧
    serveLRR lrrS4 ["label=api-canary-v1-beta1", "nofallback"] ≠ LRRResult.defaulted := by
  decide

theorem sliceMatch_nofallback_exact (hs : List NamedHandlerL) (target : String) :
    ∀ h2, sliceMatch hs target false = some h2 → h2.name = target := by
  induction hs with
  | nil => intro h2 h; simp [sliceMatch] at h
  | cons h rest ih =>
    intro h2 hm
    simp only [sliceMatch, Bool.false_and, Bool.false_eq_true, if_false] at hm
    split at hm
    · cases hm
      exact (by assumption : target = h.name).symm
    · exact ih h2 hm

theorem sliceMatch_nofallback_total (hs : List NamedHandlerL) (target : String)
    (h : ∃ h2 ∈ hs, h2.name = target) : (sliceMatch hs target false).isSome = true := by
  induction hs with
  | nil => simp at h
  | cons h0 rest ih =>
    simp only [sliceMatch, Bool.false_and, Bool.false_eq_true, if_false]
    split
    · rfl
    · rcases h with ⟨h2, hmem, hname⟩
      rcases List.mem_cons.mp hmem with hmem | hmem
      · subst hmem
        exact absurd hname.symm (by assumption)
      · exact ih ⟨h2, hmem, hname⟩

theorem serveLRR_eq (b : BalancerL) (vals : List String) (label : String)
    (hp : parseLRR vals = (label, false)) (hl : label ≠ "") :
    serveLRR b vals =
      (match sliceMatch b.handlers (b.serviceName ++ "-" ++ label) false with
       | some h => LRRResult.served h
       | none => LRRResult.error500) := by
  unfold serveLRR
  rw [hp]
  simp only [if_neg hl]
  rcases hm : sliceMatch b.handlers (b.serviceName ++ "-" ++ label) false with _ | h
  · simp [hl]
  · simp

/-- Claim C5, amended: for a request whose X-Canary yields a non-empty label
and nofallback, an exact match of `target = serviceName-label` against a
registered handler name wins; with nofallback set a handler whose name is a
mere prefix of the target never wins (only exact matches do); and when no
handler matches, the balancer answers 500 — the default handler is used
only when nofallback is unset or the label is empty. In particular, target
`lrr-api-canary-v1-beta1` with nofallback matches no handler of the S4
balancer and yields 500 rather than the default. -/
theorem c5_lrr_amended (b : BalancerL) (vals : List String) (label : String)
    (hp : parseLRR vals = (label, false)) (hl : label ≠ "") :
    ((∃ h2 ∈ b.handlers, h2.name = b.serviceName ++ "-" ++ label) →
      ∃ h2, sliceMatch b.handlers (b.serviceName ++ "-" ++ label) false = some h2 ∧
        h2.name = b.serviceName ++ "-" ++ label ∧ serveLRR b vals = LRRResult.served h2) ∧
    (∀ h2, sliceMatch b.handlers (b.serviceName ++ "-" ++ label) false = some h2 →
      h2.name = b.serviceName ++ "-" ++ label) ∧
    (sliceMatch b.handlers (b.serviceName ++ "-" ++ label) false = none →
      serveLRR b vals = LRRResult.error500) ∧
    serveLRR lrrS4 ["label=api-canary-v1-beta1", "nofallback"] = LRRResult.error500 := by
  refine ⟨?_, sliceMatch_nofallback_exact _ _, ?_, by decide⟩
  · intro hex
    have ht := sliceMatch_nofallback_total b.handlers (b.serviceName ++ "-" ++ label) hex
    rcases hm : sliceMatch b.handlers (b.serviceName ++ "-" ++ label) false with _ | h2
    · rw [hm] at ht; simp at ht
    · exact ⟨h2, rfl, sliceMatch_nofallback_exact _ _ h2 hm, by rw [serveLRR_eq b vals label hp hl, hm]⟩
  · intro hm
    rw [serveLRR_eq b vals label hp hl, hm]

theorem c5_lrr_amended_witness :
    (parseLRR ["label=api-canary-v1", "nofallback"] = ("api-canary-v1", false) ∧
      "api-canary-v1" ≠ "") ∧
    ((∃ h2 ∈ lrrS4.handlers, h2.name = lrrS4.serviceName ++ "-" ++ "api-canary-v1") →
      ∃ h2, sliceMatch lrrS4.handlers (lrrS4.serviceName ++ "-" ++ "api-canary-v1") false = some h2 ∧
        h2.name = lrrS4.serviceName ++ "-" ++ "api-canary-v1" ∧
        serveLRR lrrS4 ["label=api-canary-v1", "nofallback"] = LRRResult.served h2) :=
  ⟨⟨by decide, by decide⟩,
    (c5_lrr_amended lrrS4 ["label=api-canary-v1", "nofallback"] "api-canary-v1"
      (by decide) (by decide)).1⟩

/-! ### Claim C7 counterexample -/

/-- Claim C7 counterexample: `"a1"` contains the base name `"a1"`, yet
`removeNsPort "a1" "a1" = "a"`, which does not start with the base name
(the right-trim of digits and dashes eats into a base name that ends in a
digit). -/
theorem c7_normalize_counterexample :
    (subIdxAux "a1".data "a1".data).isSome = true ∧
    removeNsPort "a1" "a1" = "a" ∧
    strStarts (removeNsPort "a1" "a1") "a1" = false := by
  decide

/-! ### LabelStore lemmas -/

theorem rotateIf_config (s : LabelStore) (now : Int) :
    (rotateIf s now).expiration = s.expiration ∧
    (rotateIf s now).cacheCleanDuration = s.cacheCleanDuration ∧
    (rotateIf s now).maxCacheSize = s.maxCacheSize := by
  unfold rotateIf
  split <;> exact ⟨rfl, rfl, rfl⟩

theorem mustLoadEntryLocked_config (s : LabelStore) (k : String) (now : Int) :
    (mustLoadEntryLocked s k now).2.expiration = s.expiration ∧
    (mustLoadEntryLocked s k now).2.cacheCleanDuration = s.cacheCleanDuration ∧
    (mustLoadEntryLocked s k now).2.maxCacheSize = s.maxCacheSize := by
  unfold mustLoadEntryLocked
  rcases h1 : mapGet s.liveMap k with _ | e1
  · rcases h2 : mapGet s.staleMap k with _ | oe
    · exact rotateIf_config _ _
    · rcases oe with _ | e2
      · exact rotateIf_config _ _
      · exact rotateIf_config _ _
  · exact rotateIf_config _ _

theorem mustLoadEntryS_miss (s : LabelStore) (k : String) (now : Int)
    (h : mapGet s.liveMap k = none) :
    mustLoadEntryS s k now = mustLoadEntryLocked s k now := by
  unfold mustLoadEntryS
  rw [h]

theorem mustLoadEntryS_hit (s : LabelStore) (k : String) (now : Int) (e : LEntry)
    (h : mapGet s.liveMap k = some e) :
    mustLoadEntryS s k now =
      if s.liveMap.length > s.maxCacheSize ∨ s.shouldRound < now
      then mustLoadEntryLocked s k now else (e, s) := by
  unfold mustLoadEntryS
  rw [h]

theorem mustLoadEntryS_config (s : LabelStore) (k : String) (now : Int) :
    (mustLoadEntryS s k now).2.expiration = s.expiration ∧
    (mustLoadEntryS s k now).2.cacheCleanDuration = s.cacheCleanDuration ∧
    (mustLoadEntryS s k now).2.maxCacheSize = s.maxCacheSize := by
  rcases h1 : mapGet s.liveMap k with _ | e1
  · rw [mustLoadEntryS_miss s k now h1]
    exact mustLoadEntryLocked_config s k now
  · rw [mustLoadEntryS_hit s k now e1 h1]
    split
    · exact mustLoadEntryLocked_config s k now
    · exact ⟨rfl, rfl, rfl⟩

theorem storeUpdateEntry_config (s : LabelStore) (k : String) (e : LEntry) :
    (storeUpdateEntry s k e).expiration = s.expiration := by
  unfold storeUpdateEntry
  split <;> rfl

theorem mustLoadEntryS_found (s : LabelStore) (k : String) (now : Int) (e : LEntry)
    (h : lookupEntry s k = some e) : (mustLoadEntryS s k now).1 = e := by
  unfold lookupEntry at h
  rcases h1 : mapGet s.liveMap k with _ | e1
  · rw [h1] at h
    rcases h2 : mapGet s.staleMap k with _ | oe
    · rw [h2] at h
      simp at h
    · rw [h2] at h
      rcases oe with _ | e2
      · simp at h
      · simp only [Option.some_bind, id] at h
        cases h
        rw [mustLoadEntryS_miss s k now h1]
        unfold mustLoadEntryLocked
        rw [h1, h2]
  · rw [h1] at h
    cases h
    rw [mustLoadEntryS_hit s k now e h1]
    split
    · unfold mustLoadEntryLocked
      rw [h1]
    · rfl

theorem lookupEntry_storeUpdate (s : LabelStore) (k : String) (e : LEntry) :
    lookupEntry (storeUpdateEntry s k e) k = some e := by
  unfold storeUpdateEntry
  split
  · unfold lookupEntry
    have hm := mapGet_mapSet_self s.liveMap k e
    simp only
    rw [hm]
  · rename_i hfalse
    have ha : s.liveMap.any (fun p => p.1 = k) = false := by
      rcases hb : s.liveMap.any (fun p => p.1 = k) with _ | _
      · rfl
      · exact absurd hb hfalse
    have hn : mapGet s.liveMap k = none := mapGet_eq_none_of_any_false ha
    unfold lookupEntry
    simp only
    rw [hn, mapGet_mapSet_self]
    rfl


/-! ### Claim C2: failed fetch semantics -/

/-- Claim C2 counterexample: at t = 5 a healthy gate and a failed exchange
make the fetcher return the empty list; `MustLoadLabels` then does update
the fresh entry (value becomes the cached empty list, expireAt becomes
5 + 600 = 605), and a follow-up request for the same uid at t = 6, with a
working fetcher available, does not refetch — contrary to the claim that
the entry is left untouched and the next request retries. -/
theorem c2_failed_fetch_counterexample :
    c2Run1.1.1 = [] ∧ c2Run1.1.2 = true ∧
    mapGet c2Run1.2.liveMap "u1" = some { value := some [], expireAt := 605 } ∧
    (MustLoadLabelsS c2Fetch2 c2Run1.2 "u1" 6).1.2 = false := by
  decide

/-- Claim C2, amended: when the fetch fails transiently (the
`MustGetUserLabels` outcome for a failed exchange is the empty list and the
current time), `MustLoadLabels` returns the empty list to the caller, and
the entry IS updated: its value becomes the cached empty list and its
expiry becomes now + expiration, so the next request for the same uid
within the TTL does not retry the fetch. -/
theorem c2_failed_fetch_amended (s : LabelStore) (uid : String) (now : Int)
    (hstale : (mustLoadEntryS s uid now).1.value = none ∨
      (mustLoadEntryS s uid now).1.expireAt < now)
    (hexp : 0 ≤ s.expiration) :
    (MustLoadLabelsS (fun _ => MustGetUserLabelsM true none now) s uid now).1.1 = [] ∧
    (MustLoadLabelsS (fun _ => MustGetUserLabelsM true none now) s uid now).1.2 = true ∧
    lookupEntry (MustLoadLabelsS (fun _ => MustGetUserLabelsM true none now) s uid now).2 uid =
      some { value := some [], expireAt := now + s.expiration } ∧
    (∀ g : String → List Label × Int,
      (MustLoadLabelsS g
        (MustLoadLabelsS (fun _ => MustGetUserLabelsM true none now) s uid now).2 uid now).1.2 =
        false) := by
  have hcfg := mustLoadEntryS_config s uid now
  have hfetch : MustGetUserLabelsM true none now = ([], now) := rfl
  have hrun :
      MustLoadLabelsS (fun _ => MustGetUserLabelsM true none now) s uid now =
        (([], true), storeUpdateEntry (mustLoadEntryS s uid now).2 uid
          { value := some [], expireAt := now + s.expiration }) := by
    simp only [MustLoadLabelsS, hfetch]
    rw [if_pos hstale, hcfg.1]
  have hlook :
      lookupEntry (storeUpdateEntry (mustLoadEntryS s uid now).2 uid
        { value := some [], expireAt := now + s.expiration }) uid =
        some { value := some [], expireAt := now + s.expiration } :=
    lookupEntry_storeUpdate _ _ _
  refine ⟨by rw [hrun], by rw [hrun], by rw [hrun]; exact hlook, ?_⟩
  intro g
  have h2 : (MustLoadLabelsS (fun _ => MustGetUserLabelsM true none now) s uid now).2 =
      storeUpdateEntry (mustLoadEntryS s uid now).2 uid
        { value := some [], expireAt := now + s.expiration } := by
    rw [hrun]
  rw [h2]
  simp only [MustLoadLabelsS]
  rw [mustLoadEntryS_found _ _ _ _ hlook]
  rw [if_neg ?_]
  intro hcond
  rcases hcond with hcond | hcond
  · simp at hcond
  · simp only at hcond
    omega

theorem c2_failed_fetch_amended_witness :
    (((mustLoadEntryS c2Store "u1" 5).1.value = none ∨
        (mustLoadEntryS c2Store "u1" 5).1.expireAt < 5) ∧
      (0 : Int) ≤ c2Store.expiration) ∧
    ((MustLoadLabelsS (fun _ => MustGetUserLabelsM true none 5) c2Store "u1" 5).1.1 = [] ∧
      (MustLoadLabelsS (fun _ => MustGetUserLabelsM true none 5) c2Store "u1" 5).1.2 = true ∧
      lookupEntry
        (MustLoadLabelsS (fun _ => MustGetUserLabelsM true none 5) c2Store "u1" 5).2 "u1" =
        some { value := some [], expireAt := 5 + c2Store.expiration } ∧
      (∀ g : String → List Label × Int,
        (MustLoadLabelsS g
          (MustLoadLabelsS (fun _ => MustGetUserLabelsM true none 5) c2Store "u1" 5).2
          "u1" 5).1.2 = false)) :=
  ⟨⟨by decide, by decide⟩, c2_failed_fetch_amended c2Store "u1" 5 (by decide) (by decide)⟩

/-! ### Claim C3: rotation bound -/

theorem mapGet_pair_keys (us : List String) (u : String) (h : u ∉ us) :
    mapGet (us.map (fun x => (x, freshEntry))) u = none := by
  apply mapGet_eq_none_of_not_mem
  simpa [List.map_map, Function.comp] using h

theorem fresh_step_no_rot (e d sr now : Int) (m : Nat) (L : List (String × LEntry))
    (key : String) (hmiss : mapGet L key = none) (hsize : L.length + 1 ≤ m)
    (ht : ¬ sr < now) :
    mustLoadEntryS { expiration := e, cacheCleanDuration := d, shouldRound := sr,
                     maxCacheSize := m, liveMap := L, staleMap := [] } key now =
      (freshEntry, { expiration := e, cacheCleanDuration := d, shouldRound := sr,
                     maxCacheSize := m, liveMap := L ++ [(key, freshEntry)],
                     staleMap := [] }) := by
  rw [mustLoadEntryS_miss _ _ _ hmiss]
  unfold mustLoadEntryLocked
  dsimp only
  rw [hmiss]
  have hstale : mapGet ([] : List (String × Option LEntry)) key = none := rfl
  rw [hstale]
  rw [mapSet_of_get_none freshEntry hmiss]
  unfold rotateIf
  dsimp only
  rw [if_neg]
  rintro (hc | hc)
  · simp only [List.length_append, List.length_cons, List.length_nil] at hc
    omega
  · exact ht hc

theorem fresh_step_rot (e d sr now : Int) (m : Nat) (L : List (String × LEntry))
    (key : String) (hmiss : mapGet L key = none) (hsize : m ≤ L.length) :
    mustLoadEntryS { expiration := e, cacheCleanDuration := d, shouldRound := sr,
                     maxCacheSize := m, liveMap := L, staleMap := [] } key now =
      (freshEntry, { expiration := e, cacheCleanDuration := d, shouldRound := now + d,
                     maxCacheSize := m, liveMap := [],
                     staleMap := (L ++ [(key, freshEntry)]).map
                       (fun p => (p.1, some p.2)) }) := by
  rw [mustLoadEntryS_miss _ _ _ hmiss]
  unfold mustLoadEntryLocked
  dsimp only
  rw [hmiss]
  have hstale : mapGet ([] : List (String × Option LEntry)) key = none := rfl
  rw [hstale]
  rw [mapSet_of_get_none freshEntry hmiss]
  unfold rotateIf
  dsimp only
  rw [if_pos]
  left
  simp only [List.length_append, List.length_cons, List.length_nil]
  omega

theorem insertAll_fresh (e d sr now : Int) (m : Nat) (us : List String) :
    ∀ L : List (String × LEntry), us.Nodup → (∀ u ∈ us, u ∉ L.map (fun p => p.1)) →
    L.length + us.length ≤ m → ¬ sr < now →
    insertAll { expiration := e, cacheCleanDuration := d, shouldRound := sr,
                maxCacheSize := m, liveMap := L, staleMap := [] } us now =
      { expiration := e, cacheCleanDuration := d, shouldRound := sr, maxCacheSize := m,
        liveMap := L ++ us.map (fun u => (u, freshEntry)), staleMap := [] } := by
  induction us with
  | nil =>
    intro L _ _ _ _
    simp [insertAll]
  | cons u us ih =>
    intro L hnd hdisj hlen ht
    have hmiss : mapGet L u = none :=
      mapGet_eq_none_of_not_mem (hdisj u (List.mem_cons_self u us))
    have hstep := fresh_step_no_rot e d sr now m L u hmiss
      (by simp only [List.length_cons] at hlen; omega) ht
    simp only [insertAll, List.foldl_cons]
    rw [hstep]
    have hcons := List.nodup_cons.mp hnd
    have ih2 := ih (L ++ [(u, freshEntry)]) hcons.2 ?_ ?_ ht
    · simp only [insertAll] at ih2
      rw [ih2]
      simp [List.append_assoc]
    · intro w hw
      simp only [List.map_append, List.map_cons, List.map_nil, List.mem_append,
        List.mem_cons, List.not_mem_nil]
      rintro (hwl | hwu | hfalse)
      · exact hdisj w (List.mem_cons_of_mem u hw) hwl
      · exact hcons.1 (hwu ▸ hw)
      · exact hfalse
    · simp only [List.length_append, List.length_cons, List.length_nil] at hlen ⊢
      omega

/-- Claim C3: starting from an empty store whose timed rotation is not yet
due, inserting `maxSize + k` distinct uids (k ≥ 1) triggers a rotation at
the (maxSize+1)-st insertion; immediately after that insertion the live map
holds at most maxSize + 1 entries, and the rotation demotes exactly the
inserted generation to the stale map (where every one of the first
maxSize + 1 uids is preserved), installs a fresh empty live map, and
schedules the next round at now + cleanInterval. -/
theorem c3_rotation_bound (m k : Nat) (xs : List String) (y : String) (zs : List String)
    (e d sr now : Int)
    (hlen : xs.length = m) (hk : 1 ≤ k) (hlen2 : (xs ++ y :: zs).length = m + k)
    (hnd : (xs ++ y :: zs).Nodup) (ht : now < sr) :
    (mapSet (insertAll (emptyStore e d sr m) xs now).liveMap y freshEntry).length ≤ m + 1 ∧
    (mustLoadEntryS (insertAll (emptyStore e d sr m) xs now) y now).2.staleMap =
      (mapSet (insertAll (emptyStore e d sr m) xs now).liveMap y freshEntry).map
        (fun p => (p.1, some p.2)) ∧
    (mustLoadEntryS (insertAll (emptyStore e d sr m) xs now) y now).2.liveMap = [] ∧
    (mustLoadEntryS (insertAll (emptyStore e d sr m) xs now) y now).2.shouldRound = now + d ∧
    (∀ u ∈ xs ++ [y],
      mapGet (mustLoadEntryS (insertAll (emptyStore e d sr m) xs now) y now).2.staleMap u =
        some (some freshEntry)) := by
  have hsplit := List.nodup_append.mp hnd
  have hxnd : xs.Nodup := hsplit.1
  have hyx : y ∉ xs := fun hy => hsplit.2.2 hy (List.mem_cons_self y zs)
  have hnt : ¬ sr < now := by omega
  have hpre := insertAll_fresh e d sr now m xs [] hxnd (by simp) (by simp [hlen]) hnt
  have hpre' : insertAll (emptyStore e d sr m) xs now =
      { expiration := e, cacheCleanDuration := d, shouldRound := sr, maxCacheSize := m,
        liveMap := xs.map (fun u => (u, freshEntry)), staleMap := [] } := by
    unfold emptyStore
    rw [hpre]
    simp
  have hmiss : mapGet (xs.map (fun u => (u, freshEntry))) y = none :=
    mapGet_pair_keys xs y hyx
  have hstep := fresh_step_rot e d sr now m (xs.map (fun u => (u, freshEntry))) y hmiss
    (by simp [hlen])
  have hset : mapSet (xs.map (fun u => (u, freshEntry))) y freshEntry =
      xs.map (fun u => (u, freshEntry)) ++ [(y, freshEntry)] :=
    mapSet_of_get_none freshEntry hmiss
  refine ⟨?_, ?_, ?_, ?_, ?_⟩
  · rw [hpre']
    dsimp only
    rw [hset]
    simp [hlen]
  · rw [hpre']
    dsimp only
    rw [hstep, hset]
  · rw [hpre', hstep]
  · rw [hpre', hstep]
  · intro u hu
    rw [hpre', hstep]
    dsimp only
    have hrw : (xs.map (fun u => (u, freshEntry)) ++ [(y, freshEntry)]).map
        (fun p => (p.1, some p.2)) =
        (xs ++ [y]).map (fun u => (u, some freshEntry)) := by
      simp [List.map_map, Function.comp]
    rw [hrw]
    exact mapGet_map_const (some freshEntry) hu

theorem c3_rotation_bound_witness :
    ((["u1"] : List String).length = 1 ∧ 1 ≤ 1 ∧
      ((["u1"] ++ "u2" :: ([] : List String)).length = 1 + 1) ∧
      (["u1"] ++ "u2" :: ([] : List String)).Nodup ∧ (0 : Int) < 5) ∧
    ((mapSet (insertAll (emptyStore 9 7 5 1) ["u1"] 0).liveMap "u2" freshEntry).length ≤ 1 + 1 ∧
      (mustLoadEntryS (insertAll (emptyStore 9 7 5 1) ["u1"] 0) "u2" 0).2.staleMap =
        (mapSet (insertAll (emptyStore 9 7 5 1) ["u1"] 0).liveMap "u2" freshEntry).map
          (fun p => (p.1, some p.2)) ∧
      (mustLoadEntryS (insertAll (emptyStore 9 7 5 1) ["u1"] 0) "u2" 0).2.liveMap = [] ∧
      (mustLoadEntryS (insertAll (emptyStore 9 7 5 1) ["u1"] 0) "u2" 0).2.shouldRound = 0 + 7 ∧
      (∀ u ∈ ["u1"] ++ ["u2"],
        mapGet (mustLoadEntryS (insertAll (emptyStore 9 7 5 1) ["u1"] 0) "u2" 0).2.staleMap u =
          some (some freshEntry))) :=
  ⟨⟨by decide, by decide, by decide, by decide, by decide⟩,
    c3_rotation_bound 1 1 ["u1"] "u2" [] 9 7 5 0 (by decide) (by decide) (by decide)
      (by decide) (by decide)⟩


/-! ### Claim C7: name normalization -/

theorem listStarts_append (p r : List Char) : listStarts p (p ++ r) = true := by
  induction p with
  | nil => rfl
  | cons a p ih => simp [listStarts, ih]

theorem listStarts_decomp (p : List Char) :
    ∀ l : List Char, listStarts p l = true → ∃ t, l = p ++ t := by
  induction p with
  | nil => intro l _; exact ⟨l, rfl⟩
  | cons a p ih =>
    intro l h
    cases l with
    | nil => simp [listStarts] at h
    | cons b bs =>
      simp only [listStarts] at h
      split_ifs at h with hab
      · obtain ⟨t, ht⟩ := ih bs h
        exact ⟨t, by rw [hab, ht]; rfl⟩

theorem subIdx_decomp (pat : List Char) :
    ∀ (l : List Char) (i : Nat), subIdxAux pat l = some i → ∃ t, l.drop i = pat ++ t := by
  intro l
  induction l with
  | nil =>
    intro i h
    unfold subIdxAux at h
    split_ifs at h with hp
    · cases h
      exact ⟨[], by rw [hp]; rfl⟩
  | cons c rest ih =>
    intro i h
    unfold subIdxAux at h
    split_ifs at h with hp
    · cases h
      obtain ⟨t, ht⟩ := listStarts_decomp pat (c :: rest) hp
      exact ⟨t, by rw [List.drop_zero, ht]⟩
    · rcases j_spec : subIdxAux pat rest with _ | j
      · rw [j_spec] at h; simp at h
      · rw [j_spec] at h
        simp only [Option.map] at h
        cases h
        obtain ⟨t, ht⟩ := ih j j_spec
        exact ⟨t, by simpa using ht⟩

theorem dropWhile_app (P : Char → Bool) (x y : List Char) :
    List.dropWhile P (x ++ y) =
      if (List.dropWhile P x).isEmpty then List.dropWhile P y
      else List.dropWhile P x ++ y := by
  induction x with
  | nil => simp
  | cons a x ih =>
    simp only [List.cons_append, List.dropWhile_cons]
    rcases hp : P a with _ | _
    · simp [hp]
    · simp [hp, ih]

theorem dropWhile_head_false (P : Char → Bool) :
    ∀ (l : List Char) (c : Char) (t : List Char), List.dropWhile P l = c :: t → P c = false := by
  intro l
  induction l with
  | nil => intro c t h; simp at h
  | cons a l ih =>
    intro c t h
    rw [List.dropWhile_cons] at h
    split_ifs at h with hp
    · exact ih c t h
    · cases h
      simpa using hp

theorem trimRightPort_append (a b : List Char) (c : Char) (cs : List Char)
    (hrev : a.reverse = c :: cs) (hc : isPortChar c = false) :
    trimRightPort (a ++ b) = a ++ trimRightPort b := by
  unfold trimRightPort
  rw [List.reverse_append, dropWhile_app, hrev]
  rcases he : (List.dropWhile isPortChar b.reverse).isEmpty with _ | _
  · simp only [he, Bool.false_eq_true, if_false]
    rw [List.reverse_append, ← hrev, List.reverse_reverse]
  · simp only [he, if_true]
    have hb : List.dropWhile isPortChar b.reverse = [] := by
      cases hd : List.dropWhile isPortChar b.reverse
      · rfl
      · rw [hd] at he; simp at he
    rw [hb, List.dropWhile_cons, hc]
    simp only [Bool.false_eq_true, if_false]
    rw [List.reverse_cons, ← List.reverse_cons, ← hrev, List.reverse_reverse]
    simp

/-- Claim C7, amended: `normalize("ng-beta-core-beta-8080", "core") =
"core-beta"`, and for any fullName containing baseName, provided baseName is
non-empty and its last character is neither a digit nor a dash, the
normalized name starts with baseName and its last character is neither a
digit nor a dash. -/
theorem c7_normalize_amended (fullName baseName : String)
    (hc : (subIdxAux baseName.data fullName.data).isSome = true)
    (hb : endsNonPort baseName = true) :
    removeNsPort "ng-beta-core-beta-8080" "core" = "core-beta" ∧
    strStarts (removeNsPort fullName baseName) baseName = true ∧
    endsNonPort (removeNsPort fullName baseName) = true := by
  obtain ⟨i, hi⟩ := Option.isSome_iff_exists.mp hc
  obtain ⟨t, hdec⟩ := subIdx_decomp baseName.data fullName.data i hi
  obtain ⟨c, cs, hrev, hcport⟩ :
      ∃ c cs, baseName.data.reverse = c :: cs ∧ isPortChar c = false := by
    unfold endsNonPort at hb
    rcases hr : baseName.data.reverse with _ | ⟨c, cs⟩
    · rw [hr] at hb; simp at hb
    · rw [hr] at hb
      exact ⟨c, cs, rfl, by simpa using hb⟩
  have hf : removeNsPort fullName baseName =
      String.mk (trimRightPort (baseName.data ++ t)) := by
    unfold removeNsPort
    rw [hi]
    dsimp only
    by_cases hip : i > 0
    · rw [if_pos hip]
      dsimp only
      rw [hdec]
    · rw [if_neg hip]
      have hi0 : i = 0 := by omega
      rw [hi0] at hdec
      simp only [List.drop_zero] at hdec
      rw [hdec]
  have htrim : trimRightPort (baseName.data ++ t) = baseName.data ++ trimRightPort t :=
    trimRightPort_append baseName.data t c cs hrev hcport
  refine ⟨by decide, ?_, ?_⟩
  · rw [hf, htrim]
    unfold strStarts
    exact listStarts_append baseName.data (trimRightPort t)
  · rw [hf, htrim]
    unfold endsNonPort
    dsimp only
    rw [List.reverse_append]
    rcases htr : (trimRightPort t).reverse with _ | ⟨d, ds⟩
    · simp only [htr, List.nil_append]
      rw [hrev]
      simpa using hcport
    · have hdw : (trimRightPort t).reverse = List.dropWhile isPortChar t.reverse := by
        unfold trimRightPort
        rw [List.reverse_reverse]
      rw [htr] at hdw
      have hd : isPortChar d = false := dropWhile_head_false isPortChar t.reverse d ds hdw.symm
      simp only [List.cons_append]
      simpa using hd

theorem c7_normalize_amended_witness :
    ((subIdxAux "urbs-core".data "ng-dev-urbs-core-dev-8080".data).isSome = true ∧
      endsNonPort "urbs-core" = true) ∧
    (removeNsPort "ng-beta-core-beta-8080" "core" = "core-beta" ∧
      strStarts (removeNsPort "ng-dev-urbs-core-dev-8080" "urbs-core") "urbs-core" = true ∧
      endsNonPort (removeNsPort "ng-dev-urbs-core-dev-8080" "urbs-core") = true) :=
  ⟨⟨by decide, by decide⟩,
    c7_normalize_amended "ng-dev-urbs-core-dev-8080" "urbs-core" (by decide) (by decide)⟩


/-! ### Claim C4: header round trip -/

/-- Claim C4 counterexample: a client field containing a comma does not
survive the round trip, because serialization joins the fields with commas
and parsing splits the single header value on commas again. -/
theorem c4_roundtrip_counterexample :
    ({ emptyCH with label := "beta", client := "a,b" } : CanaryHeader).label ≠ "" ∧
    parseValue (chString { emptyCH with label := "beta", client := "a,b" }) true ≠
      { emptyCH with label := "beta", client := "a,b" } := by
  decide

theorem listStarts_incompat (p : List Char) :
    ∀ k : List Char, compatible p k = false → ∀ s, listStarts p (k ++ s) = false := by
  induction p with
  | nil => intro k h s; cases k <;> simp [compatible] at h
  | cons a p ih =>
    intro k h s
    cases k with
    | nil => simp [compatible] at h
    | cons b bs =>
      simp only [compatible] at h
      simp only [List.cons_append, listStarts]
      split_ifs at h ⊢ with hab
      · exact ih bs h s
      · rfl

theorem strStarts_concat_true (K s : String) : strStarts (K ++ s) K = true := by
  unfold strStarts
  rw [String.data_append]
  exact listStarts_append _ _

theorem strStarts_concat_false (P K s : String) (h : compatible P.data K.data = false) :
    strStarts (K ++ s) P = false := by
  unfold strStarts
  rw [String.data_append]
  exact listStarts_incompat _ _ h _

theorem strDrop_concat (K s : String) (n : Nat) (hn : K.data.length = n) :
    strDrop (K ++ s) n = s := by
  unfold strDrop
  rw [String.data_append, ← hn, List.drop_left]

theorem trimL_concat (k s : List Char) (hk : k ≠ [])
    (h1 : k.dropWhile isSp = k)
    (h2 : (s.reverse ++ k.reverse).dropWhile isSp = s.reverse ++ k.reverse) :
    trimL (k ++ s) = k ++ s := by
  unfold trimL
  rw [dropWhile_app, h1]
  have hne : k.isEmpty = false := by
    cases k
    · exact absurd rfl hk
    · rfl
  rw [hne]
  simp only [Bool.false_eq_true, if_false]
  rw [List.reverse_append, h2, ← List.reverse_append, List.reverse_reverse]

theorem tail_nop_of_clean (k : List Char) (s : String)
    (hkrev : k.reverse.dropWhile isSp = k.reverse)
    (hclean : fieldCleanB s = true) :
    (s.data.reverse ++ k.reverse).dropWhile isSp = s.data.reverse ++ k.reverse := by
  rcases hsr : s.data.reverse with _ | ⟨c, cs⟩
  · simpa using hkrev
  · have hc : isSp c = false := by
      unfold fieldCleanB at hclean
      rw [hsr] at hclean
      simp only [Bool.and_eq_true] at hclean
      simpa using hclean.2
    rw [List.cons_append, List.dropWhile_cons, hc]
    simp

theorem trimSpace_kv (K s : String) (hk : K.data ≠ [])
    (h1 : K.data.dropWhile isSp = K.data)
    (h2 : K.data.reverse.dropWhile isSp = K.data.reverse)
    (hclean : fieldCleanB s = true) :
    trimSpace (K ++ s) = K ++ s := by
  unfold trimSpace
  rw [String.data_append, trimL_concat K.data s.data hk h1 (tail_nop_of_clean K.data s h2 hclean),
    ← String.data_append]


theorem feedToken_label (ch : CanaryHeader) (i : Nat) (s : String)
    (hc : fieldCleanB s = true) :
    feedToken ch i ("label=" ++ s) true = { ch with label := s } := by
  unfold feedToken
  rw [trimSpace_kv "label=" s (by decide) (by decide) (by decide) hc]
  have y1 : strStarts ("label=" ++ s) "label=" = true := strStarts_concat_true _ _
  simp only [feedTokenT, y1, if_true]
  rw [strDrop_concat "label=" s 6 rfl]

theorem feedToken_product (ch : CanaryHeader) (i : Nat) (s : String)
    (hc : fieldCleanB s = true) :
    feedToken ch i ("product=" ++ s) true = { ch with product := s } := by
  unfold feedToken
  rw [trimSpace_kv "product=" s (by decide) (by decide) (by decide) hc]
  have n1 : strStarts ("product=" ++ s) "label=" = false :=
    strStarts_concat_false _ _ _ (by decide)
  have y1 : strStarts ("product=" ++ s) "product=" = true := strStarts_concat_true _ _
  simp only [feedTokenT, n1, y1, Bool.true_and, Bool.false_eq_true, if_false, if_true]
  rw [strDrop_concat "product=" s 8 rfl]

theorem feedToken_uid (ch : CanaryHeader) (i : Nat) (s : String)
    (hc : fieldCleanB s = true) :
    feedToken ch i ("uid=" ++ s) true = { ch with uid := s } := by
  unfold feedToken
  rw [trimSpace_kv "uid=" s (by decide) (by decide) (by decide) hc]
  have n1 : strStarts ("uid=" ++ s) "label=" = false :=
    strStarts_concat_false _ _ _ (by decide)
  have n2 : strStarts ("uid=" ++ s) "product=" = false :=
    strStarts_concat_false _ _ _ (by decide)
  have y1 : strStarts ("uid=" ++ s) "uid=" = true := strStarts_concat_true _ _
  simp only [feedTokenT, n1, n2, y1, Bool.true_and, Bool.false_eq_true, if_false, if_true]
  rw [strDrop_concat "uid=" s 4 rfl]

theorem feedToken_client (ch : CanaryHeader) (i : Nat) (s : String)
    (hc : fieldCleanB s = true) :
    feedToken ch i ("client=" ++ s) true = { ch with client := s } := by
  unfold feedToken
  rw [trimSpace_kv "client=" s (by decide) (by decide) (by decide) hc]
  have n1 : strStarts ("client=" ++ s) "label=" = false :=
    strStarts_concat_false _ _ _ (by decide)
  have n2 : strStarts ("client=" ++ s) "product=" = false :=
    strStarts_concat_false _ _ _ (by decide)
  have n3 : strStarts ("client=" ++ s) "uid=" = false :=
    strStarts_concat_false _ _ _ (by decide)
  have y1 : strStarts ("client=" ++ s) "client=" = true := strStarts_concat_true _ _
  simp only [feedTokenT, n1, n2, n3, y1, Bool.true_and, Bool.false_eq_true, if_false, if_true]
  rw [strDrop_concat "client=" s 7 rfl]

theorem feedToken_channel (ch : CanaryHeader) (i : Nat) (s : String)
    (hc : fieldCleanB s = true) :
    feedToken ch i ("channel=" ++ s) true = { ch with channel := s } := by
  unfold feedToken
  rw [trimSpace_kv "channel=" s (by decide) (by decide) (by decide) hc]
  have n1 : strStarts ("channel=" ++ s) "label=" = false :=
    strStarts_concat_false _ _ _ (by decide)
  have n2 : strStarts ("channel=" ++ s) "product=" = false :=
    strStarts_concat_false _ _ _ (by decide)
  have n3 : strStarts ("channel=" ++ s) "uid=" = false :=
    strStarts_concat_false _ _ _ (by decide)
  have n4 : strStarts ("channel=" ++ s) "client=" = false :=
    strStarts_concat_false _ _ _ (by decide)
  have y1 : strStarts ("channel=" ++ s) "channel=" = true := strStarts_concat_true _ _
  simp only [feedTokenT, n1, n2, n3, n4, y1, Bool.true_and, Bool.false_eq_true, if_false,
    if_true]
  rw [strDrop_concat "channel=" s 8 rfl]

theorem feedToken_app (ch : CanaryHeader) (i : Nat) (s : String)
    (hc : fieldCleanB s = true) :
    feedToken ch i ("app=" ++ s) true = { ch with app := s } := by
  unfold feedToken
  rw [trimSpace_kv "app=" s (by decide) (by decide) (by decide) hc]
  have n1 : strStarts ("app=" ++ s) "label=" = false :=
    strStarts_concat_false _ _ _ (by decide)
  have n2 : strStarts ("app=" ++ s) "product=" = false :=
    strStarts_concat_false _ _ _ (by decide)
  have n3 : strStarts ("app=" ++ s) "uid=" = false :=
    strStarts_concat_false _ _ _ (by decide)
  have n4 : strStarts ("app=" ++ s) "client=" = false :=
    strStarts_concat_false _ _ _ (by decide)
  have n5 : strStarts ("app=" ++ s) "channel=" = false :=
    strStarts_concat_false _ _ _ (by decide)
  have y1 : strStarts ("app=" ++ s) "app=" = true := strStarts_concat_true _ _
  simp only [feedTokenT, n1, n2, n3, n4, n5, y1, Bool.true_and, Bool.false_eq_true, if_false,
    if_true]
  rw [strDrop_concat "app=" s 4 rfl]

theorem feedToken_version (ch : CanaryHeader) (i : Nat) (s : String)
    (hc : fieldCleanB s = true) :
    feedToken ch i ("version=" ++ s) true = { ch with version := s } := by
  unfold feedToken
  rw [trimSpace_kv "version=" s (by decide) (by decide) (by decide) hc]
  have n1 : strStarts ("version=" ++ s) "label=" = false :=
    strStarts_concat_false _ _ _ (by decide)
  have n2 : strStarts ("version=" ++ s) "product=" = false :=
    strStarts_concat_false _ _ _ (by decide)
  have n3 : strStarts ("version=" ++ s) "uid=" = false :=
    strStarts_concat_false _ _ _ (by decide)
  have n4 : strStarts ("version=" ++ s) "client=" = false :=
    strStarts_concat_false _ _ _ (by decide)
  have n5 : strStarts ("version=" ++ s) "channel=" = false :=
    strStarts_concat_false _ _ _ (by decide)
  have n6 : strStarts ("version=" ++ s) "app=" = false :=
    strStarts_concat_false _ _ _ (by decide)
  have y1 : strStarts ("version=" ++ s) "version=" = true := strStarts_concat_true _ _
  simp only [feedTokenT, n1, n2, n3, n4, n5, n6, y1, Bool.true_and, Bool.false_eq_true,
    if_false, if_true]
  rw [strDrop_concat "version=" s 8 rfl]

set_option maxHeartbeats 2000000 in
theorem feedToken_nofallback_tok (ch : CanaryHeader) (i : Nat) :
    feedToken ch i "nofallback" true = { ch with nofallback := true } := rfl

set_option maxHeartbeats 2000000 in
theorem feedToken_testing_tok (ch : CanaryHeader) (i : Nat) :
    feedToken ch i "testing" true = { ch with testing := true } := rfl


theorem feedAux_append (xs : List String) :
    ∀ (ch : CanaryHeader) (i : Nat) (ys : List String) (t : Bool),
    feedAux ch i (xs ++ ys) t = feedAux (feedAux ch i xs t) (i + xs.length) ys t := by
  induction xs with
  | nil =>
    intro ch i ys t
    simp [feedAux]
  | cons x xs ih =>
    intro ch i ys t
    simp only [List.cons_append, feedAux, List.length_cons, List.append_eq]
    rw [ih]
    have hidx : i + 1 + xs.length = i + (xs.length + 1) := by omega
    rw [hidx]

theorem feedAux_opt_product (c0 : CanaryHeader) (i : Nat) (s : String)
    (hc : fieldCleanB s = true) (h0 : c0.product = "") :
    feedAux c0 i (if s = "" then [] else ["product=" ++ s]) true = { c0 with product := s } := by
  split_ifs with hs
  · subst hs
    show c0 = _
    rw [← h0]
  · simp only [feedAux]
    rw [feedToken_product c0 i s hc]

theorem feedAux_opt_uid (c0 : CanaryHeader) (i : Nat) (s : String)
    (hc : fieldCleanB s = true) (h0 : c0.uid = "") :
    feedAux c0 i (if s = "" then [] else ["uid=" ++ s]) true = { c0 with uid := s } := by
  split_ifs with hs
  · subst hs
    show c0 = _
    rw [← h0]
  · simp only [feedAux]
    rw [feedToken_uid c0 i s hc]

theorem feedAux_opt_client (c0 : CanaryHeader) (i : Nat) (s : String)
    (hc : fieldCleanB s = true) (h0 : c0.client = "") :
    feedAux c0 i (if s = "" then [] else ["client=" ++ s]) true = { c0 with client := s } := by
  split_ifs with hs
  · subst hs
    show c0 = _
    rw [← h0]
  · simp only [feedAux]
    rw [feedToken_client c0 i s hc]

theorem feedAux_opt_channel (c0 : CanaryHeader) (i : Nat) (s : String)
    (hc : fieldCleanB s = true) (h0 : c0.channel = "") :
    feedAux c0 i (if s = "" then [] else ["channel=" ++ s]) true = { c0 with channel := s } := by
  split_ifs with hs
  · subst hs
    show c0 = _
    rw [← h0]
  · simp only [feedAux]
    rw [feedToken_channel c0 i s hc]

theorem feedAux_opt_app (c0 : CanaryHeader) (i : Nat) (s : String)
    (hc : fieldCleanB s = true) (h0 : c0.app = "") :
    feedAux c0 i (if s = "" then [] else ["app=" ++ s]) true = { c0 with app := s } := by
  split_ifs with hs
  · subst hs
    show c0 = _
    rw [← h0]
  · simp only [feedAux]
    rw [feedToken_app c0 i s hc]

theorem feedAux_opt_version (c0 : CanaryHeader) (i : Nat) (s : String)
    (hc : fieldCleanB s = true) (h0 : c0.version = "") :
    feedAux c0 i (if s = "" then [] else ["version=" ++ s]) true = { c0 with version := s } := by
  split_ifs with hs
  · subst hs
    show c0 = _
    rw [← h0]
  · simp only [feedAux]
    rw [feedToken_version c0 i s hc]

theorem feedAux_opt_nofallback (c0 : CanaryHeader) (i : Nat) (b : Bool)
    (h0 : c0.nofallback = false) :
    feedAux c0 i (if b then ["nofallback"] else []) true = { c0 with nofallback := b } := by
  cases b
  · show c0 = _
    rw [← h0]
  · simp only [if_true, feedAux]
    rw [feedToken_nofallback_tok c0 i]

theorem feedAux_opt_testing (c0 : CanaryHeader) (i : Nat) (b : Bool)
    (h0 : c0.testing = false) :
    feedAux c0 i (if b then ["testing"] else []) true = { c0 with testing := b } := by
  cases b
  · show c0 = _
    rw [← h0]
  · simp only [if_true, feedAux]
    rw [feedToken_testing_tok c0 i]

theorem feed_chTokens (ch : CanaryHeader)
    (h1 : fieldCleanB ch.label = true) (h2 : fieldCleanB ch.product = true)
    (h3 : fieldCleanB ch.uid = true) (h4 : fieldCleanB ch.client = true)
    (h5 : fieldCleanB ch.channel = true) (h6 : fieldCleanB ch.app = true)
    (h7 : fieldCleanB ch.version = true) :
    feedAux emptyCH 0 (chTokens ch) true = ch := by
  unfold chTokens
  rw [feedAux_append, feedAux_append, feedAux_append, feedAux_append, feedAux_append,
    feedAux_append, feedAux_append, feedAux_append]
  simp only [feedAux]
  rw [feedToken_label emptyCH 0 ch.label h1]
  rw [feedAux_opt_product _ _ _ h2 rfl]
  rw [feedAux_opt_uid _ _ _ h3 rfl]
  rw [feedAux_opt_client _ _ _ h4 rfl]
  rw [feedAux_opt_channel _ _ _ h5 rfl]
  rw [feedAux_opt_app _ _ _ h6 rfl]
  rw [feedAux_opt_version _ _ _ h7 rfl]
  rw [feedAux_opt_nofallback _ _ _ rfl]
  rw [feedAux_opt_testing _ _ _ rfl]


theorem splitSep_nosep (c : Char) :
    ∀ l : List Char, l.all (fun x => !(x = c)) = true → splitSep c l = [l] := by
  intro l
  induction l with
  | nil => intro _; rfl
  | cons a l ih =>
    intro h
    simp only [List.all_cons, Bool.and_eq_true] at h
    have ha : ¬ a = c := by simpa using h.1
    simp only [splitSep]
    rw [ih h.2]
    simp [ha]

theorem splitSep_glue (c : Char) :
    ∀ x r : List Char, x.all (fun y => !(y = c)) = true →
    splitSep c (x ++ c :: r) = x :: splitSep c r := by
  intro x
  induction x with
  | nil =>
    intro r _
    simp only [List.nil_append, splitSep]
    simp
  | cons a x ih =>
    intro r h
    simp only [List.all_cons, Bool.and_eq_true] at h
    have ha : ¬ a = c := by simpa using h.1
    simp only [List.cons_append, splitSep, List.append_eq]
    rw [ih r h.2]
    simp [ha]

theorem splitSep_joinSep (c : Char) :
    ∀ ts : List (List Char), ts ≠ [] → (∀ t ∈ ts, t.all (fun x => !(x = c)) = true) →
    splitSep c (joinSep [c] ts) = ts := by
  intro ts
  induction ts with
  | nil => intro h _; exact absurd rfl h
  | cons x ts ih =>
    intro _ hall
    cases ts with
    | nil =>
      simp only [joinSep]
      exact splitSep_nosep c x (hall x (List.mem_cons_self _ _))
    | cons y ts2 =>
      simp only [joinSep]
      rw [List.append_assoc, List.singleton_append]
      rw [splitSep_glue c x _ (hall x (List.mem_cons_self _ _))]
      rw [ih (by simp) (fun t ht => hall t (List.mem_cons_of_mem _ ht))]

theorem string_mk_data (s : String) : String.mk s.data = s := rfl

theorem map_mk_data (ts : List String) : (ts.map String.data).map String.mk = ts := by
  induction ts with
  | nil => rfl
  | cons t ts ih => simp only [List.map_cons, string_mk_data, ih]

theorem idxAux_none_of_all (c : Char) :
    ∀ l : List Char, l.all (fun x => !(x = c)) = true → idxAux c l = none := by
  intro l
  induction l with
  | nil => intro _; rfl
  | cons a l ih =>
    intro h
    simp only [List.all_cons, Bool.and_eq_true] at h
    have ha : ¬ a = c := by simpa using h.1
    simp only [idxAux, if_neg ha]
    rw [ih h.2]
    rfl

theorem idxAux_isSome_of_mem (c : Char) :
    ∀ l : List Char, c ∈ l → (idxAux c l).isSome = true := by
  intro l
  induction l with
  | nil => intro h; simp at h
  | cons a l ih =>
    intro h
    simp only [idxAux]
    by_cases ha : a = c
    · rw [if_pos ha]
      rfl
    · rw [if_neg ha]
      rcases List.mem_cons.mp h with h2 | h2
      · exact absurd h2.symm ha
      · have hs := ih h2
        rcases hj : idxAux c l with _ | j
        · rw [hj] at hs; simp at hs
        · rfl

theorem headerVals_one (v : String) :
    headerVals [v] =
      (if indexByteB v ',' > 0 then splitOnSep v ','
       else if indexByteB v ';' > 0 then splitOnSep v ';'
       else [v]) := rfl

theorem headerVals_single (v : String)
    (hc : v.data.all (fun x => !(x = ',')) = true)
    (hs : v.data.all (fun x => !(x = ';')) = true) :
    headerVals [v] = [v] := by
  have hx1 : indexByteB v ',' = -1 := by
    unfold indexByteB
    rw [idxAux_none_of_all ',' v.data hc]
  have hx2 : indexByteB v ';' = -1 := by
    unfold indexByteB
    rw [idxAux_none_of_all ';' v.data hs]
  rw [headerVals_one, hx1, hx2]
  norm_num

theorem headerVals_join (t0 : String) (rest : List String) (c0 : Char) (k : List Char)
    (hdata : t0.data = c0 :: k) (hc0 : ¬ c0 = ',')
    (hall : ∀ t ∈ t0 :: rest, t.data.all (fun x => !(x = ',')) = true)
    (hsemi : t0.data.all (fun x => !(x = ';')) = true) :
    headerVals [joinWith "," (t0 :: rest)] = t0 :: rest := by
  cases rest with
  | nil =>
    have hj : joinWith "," [t0] = t0 := rfl
    rw [hj]
    exact headerVals_single t0 (hall t0 (List.mem_cons_self _ _)) hsemi
  | cons t1 rest2 =>
    have hjoin : (joinWith "," (t0 :: t1 :: rest2)).data =
        t0.data ++ ',' :: joinSep [','] (t1.data :: rest2.map String.data) := by
      show joinSep [','] (t0.data :: t1.data :: rest2.map String.data) = _
      simp only [joinSep]
      rw [List.append_assoc]
      rfl
    have hidx : indexByteB (joinWith "," (t0 :: t1 :: rest2)) ',' > 0 := by
      unfold indexByteB
      rw [hjoin, hdata, List.cons_append]
      simp only [idxAux, if_neg hc0]
      have hmem : ',' ∈ k ++ ',' :: joinSep [','] (t1.data :: rest2.map String.data) :=
        List.mem_append_right _ (List.mem_cons_self _ _)
      have hsome := idxAux_isSome_of_mem ',' _ hmem
      rcases hj2 : idxAux ',' (k ++ ',' :: joinSep [','] (t1.data :: rest2.map String.data))
        with _ | j
      · rw [hj2] at hsome; simp at hsome
      · show ((j + 1 : Nat) : Int) > 0
        exact_mod_cast Nat.succ_pos j
    rw [headerVals_one, if_pos hidx]
    unfold splitOnSep
    have hsplit := splitSep_joinSep ',' ((t0 :: t1 :: rest2).map String.data) (by simp)
      (by
        intro t ht
        rcases List.mem_map.mp ht with ⟨u, hu, rfl⟩
        exact hall u hu)
    have hdata2 : (joinWith "," (t0 :: t1 :: rest2)).data =
        joinSep [','] ((t0 :: t1 :: rest2).map String.data) := rfl
    rw [hdata2, hsplit, map_mk_data]

theorem noSepPair (s : String) (h : fieldCleanB s = true) :
    s.data.all (fun x => !(x = ',')) = true ∧ s.data.all (fun x => !(x = ';')) = true := by
  unfold fieldCleanB at h
  simp only [Bool.and_eq_true] at h
  have h1 := h.1
  rw [List.all_eq_true] at h1
  constructor
  · rw [List.all_eq_true]
    intro x hx
    have h2 := h1 x hx
    simp at h2 ⊢
    exact h2.1
  · rw [List.all_eq_true]
    intro x hx
    have h2 := h1 x hx
    simp at h2 ⊢
    exact h2.2

theorem token_all (c : Char) (K s : String)
    (hK : K.data.all (fun x => !(x = c)) = true)
    (hs : s.data.all (fun x => !(x = c)) = true) :
    (K ++ s).data.all (fun x => !(x = c)) = true := by
  rw [String.data_append, List.all_append, hK, hs]
  rfl

theorem mem_opt_tok {u x : String} {c : Prop} [Decidable c]
    (h : u ∈ (if c then ([] : List String) else [x])) : u = x := by
  split at h
  · simp at h
  · simpa using h

theorem mem_flag_tok {u x : String} {b : Bool}
    (h : u ∈ (if b then [x] else ([] : List String))) : u = x := by
  split at h
  · simpa using h
  · simp at h

theorem chTokens_all (ch : CanaryHeader)
    (h1 : fieldCleanB ch.label = true) (h2 : fieldCleanB ch.product = true)
    (h3 : fieldCleanB ch.uid = true) (h4 : fieldCleanB ch.client = true)
    (h5 : fieldCleanB ch.channel = true) (h6 : fieldCleanB ch.app = true)
    (h7 : fieldCleanB ch.version = true) :
    ∀ t ∈ chTokens ch, t.data.all (fun x => !(x = ',')) = true := by
  intro t ht
  unfold chTokens at ht
  simp only [List.mem_append, List.mem_singleton] at ht
  rcases ht with ((((((((rfl | ht) | ht) | ht) | ht) | ht) | ht) | ht) | ht)
  · exact token_all ',' "label=" ch.label (by decide) (noSepPair ch.label h1).1
  · rw [mem_opt_tok ht]
    exact token_all ',' "product=" ch.product (by decide) (noSepPair ch.product h2).1
  · rw [mem_opt_tok ht]
    exact token_all ',' "uid=" ch.uid (by decide) (noSepPair ch.uid h3).1
  · rw [mem_opt_tok ht]
    exact token_all ',' "client=" ch.client (by decide) (noSepPair ch.client h4).1
  · rw [mem_opt_tok ht]
    exact token_all ',' "channel=" ch.channel (by decide) (noSepPair ch.channel h5).1
  · rw [mem_opt_tok ht]
    exact token_all ',' "app=" ch.app (by decide) (noSepPair ch.app h6).1
  · rw [mem_opt_tok ht]
    exact token_all ',' "version=" ch.version (by decide) (noSepPair ch.version h7).1
  · rw [mem_flag_tok ht]
    decide
  · rw [mem_flag_tok ht]
    decide

/-- Claim C4, amended: for every canaryHeader with a non-empty label whose
field values contain no comma and no semicolon and do not end in
whitespace, parsing the serialized header with trust enabled reproduces the
header exactly. -/
theorem c4_roundtrip_amended (ch : CanaryHeader) (hl : ch.label ≠ "")
    (h1 : fieldCleanB ch.label = true) (h2 : fieldCleanB ch.product = true)
    (h3 : fieldCleanB ch.uid = true) (h4 : fieldCleanB ch.client = true)
    (h5 : fieldCleanB ch.channel = true) (h6 : fieldCleanB ch.app = true)
    (h7 : fieldCleanB ch.version = true) :
    parseValue (chString ch) true = ch := by
  have htok := chTokens_all ch h1 h2 h3 h4 h5 h6 h7
  have hdata0 : ("label=" ++ ch.label).data = 'l' :: ("abel=".data ++ ch.label.data) := by
    rw [String.data_append]
    rfl
  have hsemi0 : ("label=" ++ ch.label).data.all (fun x => !(x = ';')) = true :=
    token_all ';' "label=" ch.label (by decide) (noSepPair ch.label h1).2
  have hhv : headerVals [joinWith "," (chTokens ch)] = chTokens ch :=
    headerVals_join ("label=" ++ ch.label) _ 'l' ("abel=".data ++ ch.label.data) hdata0
      (by decide) htok hsemi0
  unfold parseValue fromHeaderVals chString
  rw [if_neg hl, hhv]
  simp only [feed]
  rw [feed_chTokens ch h1 h2 h3 h4 h5 h6 h7]
  rw [if_neg (fun hcond => hl hcond.2)]

theorem c4_roundtrip_amended_witness :
    (("beta" : String) ≠ "" ∧ fieldCleanB "beta" = true ∧ fieldCleanB "urbs" = true ∧
      fieldCleanB "55" = true ∧ fieldCleanB "iOS" = true ∧ fieldCleanB "stable" = true ∧
      fieldCleanB "tb" = true ∧ fieldCleanB "v10" = true) ∧
    parseValue (chString (CanaryHeader.mk "beta" "urbs" "55" "iOS" "stable" "tb" "v10" true true)) true =
      CanaryHeader.mk "beta" "urbs" "55" "iOS" "stable" "tb" "v10" true true :=
  ⟨⟨by decide, by decide, by decide, by decide, by decide, by decide, by decide, by decide⟩,
    c4_roundtrip_amended _ (by decide) (by decide) (by decide) (by decide) (by decide)
      (by decide) (by decide) (by decide)⟩


end TraefikSpec
